import Mathlib

/-!
Shallow embedding of the merge-engine infrastructure of the go-jwlm
repository, together with theorems settling the frozen claims about it.

The embedded code:
* `model.UpdateIDs` and its helpers (src/unnamed/part_002, lines 203-235) —
  the reflection-driven foreign-key rewriter, modelled over a dynamic
  row representation mirroring exactly the field kinds the Go type switch
  distinguishes (`int`, `sql.NullInt32`, everything else), with Go panics
  modelled as `Except.error` carrying the panic message.
* `model.sortByUniqueKey` (src/unnamed/part_002, lines 145-198) — the
  generic sort/renumber pass, modelled over the observations the
  reflection code makes of a row (`ID`, `SetID`, `UniqueKey`).
* `model.Location` (src/unnamed/part_001) — struct, `UniqueKey`, `Equals`.
* `model.UserMark` — struct from the repository's tests.
* The driver pipeline of `cmd/merge.go` — the ordered sequence of merge
  and ID-rewrite steps on its success path.
-/

set_option maxHeartbeats 1000000

namespace GoJwlm

/-- A dynamic field value, mirroring the field types that the reflection
code in `model.UpdateIDs` (src/unnamed/part_002) distinguishes with its
type switch: `int`, `sql.NullInt32` (an `Int32` numeric slot plus a
`Valid` bit), and the unsupported kinds `string` and `sql.NullString`
that occur on the embedded structs (e.g. `Bookmark.Title`,
`Bookmark.Snippet`). -/
inductive FieldVal where
  | vInt : Int → FieldVal
  | vNullInt32 : Int → Bool → FieldVal
  | vString : String → FieldVal
  | vNullString : String → Bool → FieldVal
  deriving DecidableEq, Repr

/-- A row is a Go struct viewed through reflection: an association list
from field name to field value, as accessed by `FieldByName`. -/
abbrev Row := List (String × FieldVal)

/-- Reflection lookup `elem.Elem().FieldByName(name)`: the first field
with the given name, `none` when the struct has no such field. -/
def fieldByName (row : Row) (name : String) : Option FieldVal :=
  (row.find? (fun p => p.1 == name)).map Prod.snd

/-- Reflection write `field.SetInt`: replace the value stored under the
given field name. -/
def setField (row : Row) (name : String) (v : FieldVal) : Row :=
  row.map (fun p => if p.1 == name then (p.1, v) else p)

/-- The `changes` argument of `UpdateIDs`: a Go `map[int]int`, modelled
as an association list with unique keys, accessed only through lookup. -/
abbrev Changes := List (Int × Int)

/-- Go map lookup `changes[old]`: value of the first (unique) entry whose
key matches, `none` when absent. -/
def changesLookup (changes : Changes) (k : Int) : Option Int :=
  (changes.find? (fun p => p.1 == k)).map Prod.snd

/-- Go map write `changes[k] = v`: replace the entry if the key is
present, otherwise append a fresh entry. -/
def changesSet (changes : Changes) (k v : Int) : Changes :=
  if (changes.find? (fun p => p.1 == k)).isSome then
    changes.map (fun p => if p.1 == k then (k, v) else p)
  else
    changes ++ [(k, v)]

/-- Two's-complement truncation to 32 bits: the write
`val.SetInt(int64(new))` into the `int32` slot of `sql.NullInt32`
stores `new` wrapped into the interval from -2147483648 up to but not
including 2147483648. Go's plain `int` is 64 bits on every platform
this repository builds for, so the `int` branch stores its value
exactly and needs no wrap. -/
def wrapInt32 (n : Int) : Int :=
  (n + 2147483648) % 4294967296 - 2147483648

/-- Go map read with default, composed with the `int32` truncation of
the write: the net effect of `UpdateIDs` on the numeric slot of an
`sql.NullInt32` field — a slot that is a key of the map is replaced by
the mapped value wrapped to `int32`, any other slot is untouched. -/
def changesApplyInt32 (changes : Changes) (n : Int) : Int :=
  match changesLookup changes n with
  | some v => wrapInt32 v
  | none => n

/-- One loop iteration of `model.UpdateIDs` (src/unnamed/part_002,
lines 213-230) on a non-nil element: look up the named field; an `int`
or `sql.NullInt32` numeric slot that is a key of `changes` is rewritten
(the `sql.NullInt32` case reads and writes `Field(0)` only, so the
`Valid` bit is neither consulted nor changed, and its `SetInt` truncates
the written value to `int32`); a missing field or any other field type
panics. -/
def updateIDsElem (IDName : String) (changes : Changes) (row : Row) :
    Except String Row :=
  match fieldByName row IDName with
  | none => .error ("Given struct does not contain field " ++ IDName)
  | some (.vInt n) =>
    match changesLookup changes n with
    | some new => .ok (setField row IDName (.vInt new))
    | none => .ok row
  | some (.vNullInt32 n valid) =>
    match changesLookup changes n with
    | some new => .ok (setField row IDName (.vNullInt32 (wrapInt32 new) valid))
    | none => .ok row
  | some _ => .error ("Type of field " ++ IDName ++ " is not supported!")

/-- The element loop of `model.UpdateIDs` over the slice: nil entries are
skipped unchanged; the first panicking element aborts the whole call. -/
def updateIDsList (IDName : String) (changes : Changes) :
    List (Option Row) → Except String (List (Option Row))
  | [] => .ok []
  | none :: t => (updateIDsList IDName changes t).map (fun l => none :: l)
  | some row :: t =>
    match updateIDsElem IDName changes row with
    | .error e => .error e
    | .ok row2 => (updateIDsList IDName changes t).map (fun l => some row2 :: l)

/-- The dynamic argument of `model.UpdateIDs`, which takes an
`interface\x7b\x7d` and switches on its reflected kind: either a slice of
(possibly nil) row pointers, or anything else. -/
inductive GoArg where
  | slice : List (Option Row) → GoArg
  | nonSlice : GoArg

/-- `model.UpdateIDs` (src/unnamed/part_002, lines 203-235): rewrite the
named ID field of every non-nil row of a slice according to `changes`;
panic (modelled as `Except.error` with the panic message) on a non-slice
argument, an unknown field name, or an unsupported field type. -/
def UpdateIDs (mdl : GoArg) (IDName : String) (changes : Changes) :
    Except String (List (Option Row)) :=
  match mdl with
  | .slice s => updateIDsList IDName changes s
  | .nonSlice => .error "Only slices are supported!"

/-- The observations `model.sortByUniqueKey` makes of a slice element via
reflection: its integer ID (`ID` / `SetID`) and its `UniqueKey` string.
Every entity's `UniqueKey` is computed from non-ID fields only, so
`SetID` leaves the key unchanged; any further payload is untouched by
the function and therefore not represented. -/
structure MRow where
  id : Int
  key : String
  deriving DecidableEq, Repr

/-- Lexicographic strict comparison of character lists, mirroring Go's
byte-wise `<` on strings for the comparator of `sortByUniqueKey`. -/
def charListLt : List Char → List Char → Bool
  | _, [] => false
  | [], _ :: _ => true
  | c :: cs, d :: ds =>
    if c < d then true
    else if d < c then false
    else charListLt cs ds

/-- Go's `<` on strings: lexicographic comparison of the characters. -/
def goStringLt (a b : String) : Bool := charListLt a.data b.data

/-- The less-than comparator passed to `sort.Slice` inside
`model.sortByUniqueKey` (src/unnamed/part_002, lines 155-169): nil is
smaller than every non-nil value, non-nil values compare by their
`UniqueKey` strings. -/
def sbuLess (a b : Option MRow) : Bool :=
  match b with
  | none => false
  | some y =>
    match a with
    | none => true
    | some x => goStringLt x.key y.key

/-- The non-strict order induced by `sbuLess`, used to state sortedness:
`a` may precede `b` exactly when `sbuLess b a` is false. Go's
`sort.Slice` guarantees precisely this ordering of the result (it is an
unspecified comparison sort, so it is modelled by insertion sort over
the same comparator). -/
def sbuLE (a b : Option MRow) : Prop := sbuLess b a = false

instance : DecidableRel sbuLE := fun a b =>
  inferInstanceAs (Decidable (sbuLess b a = false))

/-- Nil-deduplication step of `model.sortByUniqueKey` (lines 171-182):
count the nil entries of the sorted slice and, if there is more than
one, reslice from position `nilCount - 1`, keeping a single leading
nil. -/
def dropExtraNils (s : List (Option MRow)) : List (Option MRow) :=
  let nilCount := s.countP (fun e => e.isNone)
  if nilCount > 1 then s.drop (nilCount - 1) else s

/-- Renumbering loop of `model.sortByUniqueKey` (lines 184-195): walk the
slice with its index; a non-nil element whose ID differs from its index
has the pair (old ID, index) recorded in the changes map and its ID set
to the index. -/
def renumber : Nat → List (Option MRow) → Changes → List (Option MRow) × Changes
  | _, [], changes => ([], changes)
  | i, none :: t, changes =>
    let r := renumber (i + 1) t changes
    (none :: r.1, r.2)
  | i, some x :: t, changes =>
    if x.id = (i : Int) then
      let r := renumber (i + 1) t changes
      (some x :: r.1, r.2)
    else
      let r := renumber (i + 1) t (changesSet changes x.id (i : Int))
      (some { x with id := (i : Int) } :: r.1, r.2)

/-- The sorted and nil-deduplicated slice: the state of the slice at the
point where the renumbering loop of `model.sortByUniqueKey` starts. -/
def sortedTrimmed (s : List (Option MRow)) : List (Option MRow) :=
  dropExtraNils (List.insertionSort sbuLE s)

/-- `model.sortByUniqueKey` (src/unnamed/part_002, lines 145-198): sort
by `UniqueKey` with nil smallest, drop all but one nil, renumber IDs to
indices, and return the updated slice together with the old-to-new ID
map. -/
def sortByUniqueKey (s : List (Option MRow)) : List (Option MRow) × Changes :=
  renumber 0 (sortedTrimmed s) []

/-- `sql.NullInt32`: an `Int32` numeric slot plus a `Valid` bit. -/
structure NullInt32 where
  Int32 : Int
  Valid : Bool
  deriving DecidableEq, Repr

/-- `sql.NullString`: a string slot plus a `Valid` bit. -/
structure NullString where
  str : String
  Valid : Bool
  deriving DecidableEq, Repr

/-- `model.Location` (src/unnamed/part_001, lines 10-21). -/
structure Location where
  LocationID : Int
  BookNumber : NullInt32
  ChapterNumber : NullInt32
  DocumentID : NullInt32
  Track : NullInt32
  IssueTagNumber : Int
  KeySymbol : NullString
  MepsLanguage : Int
  LocationType : Int
  Title : NullString
  deriving DecidableEq, Repr

/-- `model.UserMark`, with the fields exercised by the repository's
tests (src/unnamed/part_000): the struct itself is not under src, but
every field the tests set is listed there. -/
structure UserMark where
  UserMarkID : Int
  ColorIndex : Int
  LocationID : Int
  StyleIndex : Int
  UserMarkGUID : String
  Version : Int
  deriving DecidableEq, Repr

/-- The `model.Model` interface (src/unnamed/part_002, lines 18-28), as
the tagged union of the entities embedded here; `Location.Equals` takes
any `Model` as its argument. -/
inductive Model where
  | location : Location → Model
  | userMark : UserMark → Model
  | generic : Row → Model
  deriving DecidableEq, Repr

/-- `Location.UniqueKey` (src/unnamed/part_001, lines 35-54): the
underscore-joined concatenation of `BookNumber.Int32`,
`ChapterNumber.Int32`, `DocumentID.Int32`, `Track.Int32`,
`IssueTagNumber`, `KeySymbol.String`, `MepsLanguage`, `LocationType`.
The numeric slot of each nullable field is used directly, without
consulting its `Valid` bit; `LocationID` and `Title` do not occur. -/
def Location.UniqueKey (m : Location) : String :=
  toString m.BookNumber.Int32 ++ "_" ++
  toString m.ChapterNumber.Int32 ++ "_" ++
  toString m.DocumentID.Int32 ++ "_" ++
  toString m.Track.Int32 ++ "_" ++
  toString m.IssueTagNumber ++ "_" ++
  m.KeySymbol.str ++ "_" ++
  toString m.MepsLanguage ++ "_" ++
  toString m.LocationType

/-- `Location.Equals` (src/unnamed/part_001, lines 56-59): the body is
`return false`, for every argument. -/
def Location.Equals (_ : Location) (_ : Model) : Bool :=
  false

/-- Modelled from the spec: the string `Location.UniqueKey` would return
according to the spec's words — the same underscore-joined field list,
but with every nullable integer field contributing `0` when its present
bit is unset ("nullable ints contribute their zero when absent"). -/
def locationUniqueKeyOfSpec (m : Location) : String :=
  toString (if m.BookNumber.Valid then m.BookNumber.Int32 else 0) ++ "_" ++
  toString (if m.ChapterNumber.Valid then m.ChapterNumber.Int32 else 0) ++ "_" ++
  toString (if m.DocumentID.Valid then m.DocumentID.Int32 else 0) ++ "_" ++
  toString (if m.Track.Valid then m.Track.Int32 else 0) ++ "_" ++
  toString m.IssueTagNumber ++ "_" ++
  m.KeySymbol.str ++ "_" ++
  toString m.MepsLanguage ++ "_" ++
  toString m.LocationType

/-- Modelled from the spec: `UserMark.Equals` as the spec's entity table
describes it — its implementation is not under src, and the spec lists
the equality fields as colorIndex, locationId, styleIndex, guid,
version. This definition follows the spec's words literally, guid
included, to be compared against the repository's own test. -/
def userMarkEqualsOfSpec (m m2 : UserMark) : Bool :=
  m.ColorIndex == m2.ColorIndex &&
  m.LocationID == m2.LocationID &&
  m.StyleIndex == m2.StyleIndex &&
  m.UserMarkGUID == m2.UserMarkGUID &&
  m.Version == m2.Version

/-- Modelled from the spec: `UserMark.Equals` — implementation not under
src — adjusted to satisfy `TestUserMark_Equals` (src/unnamed/part_000,
lines 19-47), which asserts that two UserMarks differing in
`UserMarkGUID` (and `UserMarkID`) are Equal while two differing in
`ColorIndex` are not; the comparison therefore excludes the ID and the
GUID and covers colorIndex, locationId, styleIndex and version. -/
def UserMark.Equals (m m2 : UserMark) : Bool :=
  m.ColorIndex == m2.ColorIndex &&
  m.LocationID == m2.LocationID &&
  m.StyleIndex == m2.StyleIndex &&
  m.Version == m2.Version

/-- The fixture `m1` of `TestUserMark_Equals` (src/unnamed/part_000,
lines 20-27): unset fields carry Go's zero value. -/
def testUserMark_m1 : UserMark :=
  { UserMarkID := 1, ColorIndex := 1, LocationID := 1, StyleIndex := 1,
    UserMarkGUID := "FIRST", Version := 1 }

/-- The fixture `m1_1` of `TestUserMark_Equals` (lines 28-35): same as
`m1` except `UserMarkID = 1000` and `UserMarkGUID = "FIRSTT"`; the test
asserts `m1.Equals(m1_1)` is true. -/
def testUserMark_m1_1 : UserMark :=
  { UserMarkID := 1000, ColorIndex := 1, LocationID := 1, StyleIndex := 1,
    UserMarkGUID := "FIRSTT", Version := 1 }

/-- The fixture `m2` of `TestUserMark_Equals` (lines 37-44): same as
`m1` except `ColorIndex = 5`; the test asserts `m1.Equals(m2)` is
false. -/
def testUserMark_m2 : UserMark :=
  { UserMarkID := 1, ColorIndex := 5, LocationID := 1, StyleIndex := 1,
    UserMarkGUID := "FIRST", Version := 1 }

/-- One effect on the success path of the driver `merge` in
cmd/merge.go: a table merge (`merger.MergeXXX`), an application of
`merger.UpdateIDs` to the pending Left and Right lists of a table, or
an application of `merger.UpdateIDs` to the already-merged list of a
table; each carries the table name and, for rewrites, the FK field
name passed in the source. -/
inductive MergeStep where
  | mergeTable : String → MergeStep
  | updateIDs : String → String → MergeStep
  | updateMergedIDs : String → String → MergeStep
  deriving DecidableEq, Repr

/-- The ordered effects of the driver `merge` (cmd/merge.go, lines
35-149) on its success path, transcribed top to bottom. Each
conflict-retry loop repeats the same merge call until it succeeds, so
on success the loop contributes its merge step followed by the
`UpdateIDs` calls placed before its `break`. -/
def mergePipeline : List MergeStep := [
  .mergeTable "Location",
  .updateIDs "Bookmark" "LocationID",
  .updateIDs "Bookmark" "PublicationLocationID",
  .updateIDs "Note" "LocationID",
  .updateIDs "TagMap" "LocationID",
  .mergeTable "Bookmark",
  .mergeTable "Tag",
  .updateIDs "TagMap" "TagID",
  .mergeTable "TagMap",
  .mergeTable "UserMark",
  .updateIDs "Note" "UserMarkID",
  .mergeTable "Note",
  .updateMergedIDs "TagMap" "NoteID"]

/-- A `model.Bookmark` (src/unnamed/part_003, lines 10-19) as a dynamic
row, in source field order, with the given `BookmarkID` and
`LocationID` and Go zero values everywhere else — the shape of the
fixtures of `TestUpdateIDs_Bookmarks` (src/merger/IDChanges_test.go). -/
def bookmarkRow (id loc : Int) : Row := [
  ("BookmarkID", .vInt id),
  ("LocationID", .vInt loc),
  ("PublicationLocationID", .vInt 0),
  ("Slot", .vInt 0),
  ("Title", .vString ""),
  ("Snippet", .vNullString "" false),
  ("BlockType", .vInt 0),
  ("BlockIdentifier", .vNullInt32 0 false)]

/-- A `model.Note` as a dynamic row restricted to the fields set by
`TestUpdateIDs_Notes` (src/merger/IDChanges_test.go): `NoteID` is an
`int`, `LocationID` an `sql.NullInt32`. -/
def noteRow (id : Int) (loc : Int) (locValid : Bool) : Row := [
  ("NoteID", .vInt id),
  ("LocationID", .vNullInt32 loc locValid)]

/-- A `Location` whose `BookNumber` has a nonzero numeric slot with the
`Valid` bit unset, and Go zero values everywhere else. -/
def locationEx : Location :=
  { LocationID := 1, BookNumber := ⟨7, false⟩, ChapterNumber := ⟨0, false⟩,
    DocumentID := ⟨0, false⟩, Track := ⟨0, false⟩, IssueTagNumber := 0,
    KeySymbol := ⟨"", false⟩, MepsLanguage := 0, LocationType := 0,
    Title := ⟨"", false⟩ }

/-- A `Location` with every nullable field well-formed (an unset `Valid`
bit only together with a zero slot), as produced by the database
scanner. -/
def locationWf : Location :=
  { LocationID := 2, BookNumber := ⟨1, true⟩, ChapterNumber := ⟨3, true⟩,
    DocumentID := ⟨0, false⟩, Track := ⟨0, false⟩, IssueTagNumber := 4,
    KeySymbol := ⟨"nwt", true⟩, MepsLanguage := 2, LocationType := 0,
    Title := ⟨"t", true⟩ }

/-- An input slice for `sortByUniqueKey` whose two non-nil rows share
the old ID 5 and both end up at positions different from 5. -/
def c7Input : List (Option MRow) := [none, some ⟨5, "b"⟩, some ⟨5, "a"⟩]

/-- An input slice for `sortByUniqueKey` with one nil and two non-nil
rows with distinct IDs, one of which already matches its final
position. -/
def c7Witness : List (Option MRow) := [some ⟨3, "b"⟩, none, some ⟨1, "a"⟩]

/-- Field kinds the type switch of `model.UpdateIDs` accepts: `int` and
`sql.NullInt32`; every other kind falls into the panicking default
branch. -/
def isSupportedFK : FieldVal → Bool
  | .vInt _ => true
  | .vNullInt32 _ _ => true
  | _ => false

/-- C6 (confirmed): on the concrete inputs of spec scenario 1 — the
fixtures of `TestUpdateIDs_Bookmarks` — `UpdateIDs` with field name
"LocationID" rewrites Left with \x7b1→5\x7d and Right with \x7b1→2\x7d
exactly as the spec states, leaving every entry whose `LocationID` is
not a key of the respective map unchanged. -/
theorem claim_C6_bookmark_scenario :
    UpdateIDs (.slice [none, some (bookmarkRow 1 1), some (bookmarkRow 2 0)])
        "LocationID" [(1, 5)]
      = .ok [none, some (bookmarkRow 1 5), some (bookmarkRow 2 0)]
    ∧ UpdateIDs (.slice [none, some (bookmarkRow 0 0), some (bookmarkRow 2 5),
          some (bookmarkRow 3 1)]) "LocationID" [(1, 2)]
      = .ok [none, some (bookmarkRow 0 0), some (bookmarkRow 2 5),
          some (bookmarkRow 3 2)] := by
  constructor <;> rfl

/-- C10 (confirmed): `Location.Equals` returns false for every argument,
including a `Model` wrapping a `Location` structurally identical to the
receiver, so Location deduplication can only rely on `UniqueKey`. -/
theorem claim_C10_location_equals_false :
    (∀ (m : Location) (m2 : Model), Location.Equals m m2 = false)
    ∧ ∀ m : Location, Location.Equals m (Model.location m) = false :=
  ⟨fun _ _ => rfl, fun _ => rfl⟩

/-- C3 (code_bug evidence): in the driver pipeline of cmd/merge.go the
TagMap merge precedes the Notes merge, no Note-ID rewrite of the
pending Left and Right TagMap lists exists at all, and the only
Note-ID rewrite of TagMaps is applied to the already-merged list after
the Notes merge — contrary to the required order. -/
theorem claim_C3_tagmap_merged_before_notes :
    mergePipeline.findIdx (· == MergeStep.mergeTable "TagMap") <
      mergePipeline.findIdx (· == MergeStep.mergeTable "Note")
    ∧ MergeStep.mergeTable "TagMap" ∈ mergePipeline
    ∧ MergeStep.mergeTable "Note" ∈ mergePipeline
    ∧ MergeStep.updateIDs "TagMap" "NoteID" ∉ mergePipeline
    ∧ MergeStep.updateMergedIDs "TagMap" "NoteID" ∈ mergePipeline
    ∧ mergePipeline.findIdx (· == MergeStep.mergeTable "Note") <
        mergePipeline.findIdx (· == MergeStep.updateMergedIDs "TagMap" "NoteID") := by
  decide

/-- C4 (code_bug evidence): after the Locations merge the driver applies
the Location `id_changes` to Bookmarks (both `LocationID` and
`PublicationLocationID`), to Notes and to TagMaps, but no step of the
pipeline ever rewrites the `LocationID` field of UserMarks. -/
theorem claim_C4_usermark_location_not_rewritten :
    MergeStep.updateIDs "Bookmark" "LocationID" ∈ mergePipeline
    ∧ MergeStep.updateIDs "Bookmark" "PublicationLocationID" ∈ mergePipeline
    ∧ MergeStep.updateIDs "Note" "LocationID" ∈ mergePipeline
    ∧ MergeStep.updateIDs "TagMap" "LocationID" ∈ mergePipeline
    ∧ MergeStep.updateIDs "UserMark" "LocationID" ∉ mergePipeline
    ∧ MergeStep.updateMergedIDs "UserMark" "LocationID" ∉ mergePipeline := by
  decide

/-- C2 (counterexample): on the fixtures of `TestUserMark_Equals` the
UserMarks `m1` and `m1_1` differ in their guid field, yet the equality
the test pins down returns true on them — while the literal
spec-modelled equality (guid included) returns false, contradicting
the test. -/
theorem claim_C2_counterexample :
    UserMark.Equals testUserMark_m1 testUserMark_m1_1 = true
    ∧ testUserMark_m1.UserMarkGUID ≠ testUserMark_m1_1.UserMarkGUID
    ∧ userMarkEqualsOfSpec testUserMark_m1 testUserMark_m1_1 = false := by
  refine ⟨rfl, ?_, rfl⟩
  decide

/-- C2 (amended): UserMark structural equality compares colorIndex,
locationId, styleIndex and version, excluding both the ID and the guid;
it therefore returns true on the test pair differing only in guid and
ID, and false on the test pair differing in colorIndex, exactly as
`TestUserMark_Equals` asserts. -/
theorem claim_C2_usermark_equals :
    (∀ a b : UserMark, UserMark.Equals a b = true ↔
      a.ColorIndex = b.ColorIndex ∧ a.LocationID = b.LocationID ∧
      a.StyleIndex = b.StyleIndex ∧ a.Version = b.Version)
    ∧ UserMark.Equals testUserMark_m1 testUserMark_m1_1 = true
    ∧ UserMark.Equals testUserMark_m1 testUserMark_m2 = false := by
  refine ⟨fun a b => ?_, rfl, rfl⟩
  simp [UserMark.Equals, Bool.and_eq_true, beq_iff_eq, and_assoc]

/-- C8 (counterexample): a `Location` whose `BookNumber` carries the
numeric slot 7 with the `Valid` bit unset: `UniqueKey` renders the 7,
whereas the claim says an absent nullable integer contributes 0. -/
theorem claim_C8_counterexample :
    Location.UniqueKey locationEx = "7_0_0_0_0__0_0"
    ∧ locationUniqueKeyOfSpec locationEx = "0_0_0_0_0__0_0"
    ∧ Location.UniqueKey locationEx ≠ locationUniqueKeyOfSpec locationEx := by
  refine ⟨rfl, rfl, ?_⟩
  decide

/-- C1 (counterexample): a row whose `LocationID` is `sql.NullInt32`
with numeric slot 1 and `Valid` bit unset is rewritten by `UpdateIDs`
with the map \x7b1→5\x7d — the field does not stay unchanged. -/
theorem claim_C1_counterexample :
    UpdateIDs (.slice [some (noteRow 1 1 false)]) "LocationID" [(1, 5)]
      = .ok [some [("NoteID", .vInt 1), ("LocationID", .vNullInt32 5 false)]]
    ∧ fieldByName (noteRow 1 1 false) "LocationID" ≠ some (.vNullInt32 5 false) := by
  refine ⟨rfl, ?_⟩
  decide

/-- C5 (counterexample): with the map \x7b1→2, 2→3\x7d, one application
of `UpdateIDs` to a row with `LocationID = 1` yields 2 and a second
application moves it on to 3, so the rewrite is not idempotent for
every map. -/
theorem claim_C5_counterexample :
    UpdateIDs (.slice [some [("LocationID", FieldVal.vInt 1)]])
        "LocationID" [(1, 2), (2, 3)]
      = .ok [some [("LocationID", FieldVal.vInt 2)]]
    ∧ UpdateIDs (.slice [some [("LocationID", FieldVal.vInt 2)]])
        "LocationID" [(1, 2), (2, 3)]
      = .ok [some [("LocationID", FieldVal.vInt 3)]]
    ∧ ([some [("LocationID", FieldVal.vInt 3)]] : List (Option Row))
      ≠ [some [("LocationID", FieldVal.vInt 2)]] := by
  refine ⟨rfl, rfl, ?_⟩
  decide

/-- C7 (counterexample): on an input whose two non-nil rows share the
old ID 5, the row placed at index 1 has old ID 5 ≠ 1 but the returned
map holds only the entry 5→2 written for the row at index 2 — the
entry 5→1 demanded by the claim is missing. -/
theorem claim_C7_counterexample :
    sortedTrimmed c7Input = [none, some ⟨5, "a"⟩, some ⟨5, "b"⟩]
    ∧ (sortByUniqueKey c7Input).2 = [(5, 2)]
    ∧ (sortByUniqueKey c7Input).1 = [none, some ⟨1, "a"⟩, some ⟨2, "b"⟩]
    ∧ changesLookup (sortByUniqueKey c7Input).2 5 ≠ some 1 := by
  refine ⟨rfl, rfl, rfl, ?_⟩
  decide

/-- Writing a named field and reading it back through `FieldByName`
yields the written value, provided the field exists. -/
theorem fieldByName_setField (row : Row) (nm : String) (v0 v : FieldVal)
    (h : fieldByName row nm = some v0) :
    fieldByName (setField row nm v) nm = some v := by
  induction row with
  | nil => simp [fieldByName] at h
  | cons p t ih =>
    by_cases hp : p.1 = nm
    · simp [fieldByName, setField, List.find?, hp]
    · simp only [fieldByName, setField, List.map_cons, List.find?] at h ⊢
      have hb : (p.1 == nm) = false := by simp [hp]
      simp only [hb, if_false, Bool.false_eq_true] at h ⊢
      exact ih h

/-- Writing the same named field twice keeps only the last value. -/
theorem setField_setField (row : Row) (nm : String) (u v : FieldVal) :
    setField (setField row nm u) nm v = setField row nm v := by
  unfold setField
  rw [List.map_map]
  apply List.map_congr_left
  intro p _
  by_cases hp : p.1 = nm
  · simp [Function.comp, hp]
  · simp [Function.comp, hp]

/-- The `int32` truncation is the identity on values already in the
`int32` range. -/
theorem wrapInt32_eq_self (v : Int) (h1 : -2147483648 ≤ v)
    (h2 : v < 2147483648) : wrapInt32 v = v := by
  unfold wrapInt32
  omega

/-- One `UpdateIDs` iteration is idempotent on a row whenever every
value of the changes map lies in the `int32` range (so the truncating
write stores it exactly) and is itself either no key of the map or a
fixed point of it. -/
theorem updateIDsElem_idem (nm : String) (ch : Changes)
    (hch : ∀ k v, changesLookup ch k = some v →
      changesLookup ch v = none ∨ changesLookup ch v = some v)
    (hrange : ∀ k v, changesLookup ch k = some v →
      -2147483648 ≤ v ∧ v < 2147483648)
    (r r2 : Row) (h : updateIDsElem nm ch r = .ok r2) :
    updateIDsElem nm ch r2 = .ok r2 := by
  cases hf : fieldByName r nm with
  | none => simp [updateIDsElem, hf] at h
  | some val =>
    cases val with
    | vInt n =>
      cases hl : changesLookup ch n with
      | none =>
        simp only [updateIDsElem, hf, hl, Except.ok.injEq] at h
        subst h
        simp [updateIDsElem, hf, hl]
      | some v =>
        simp only [updateIDsElem, hf, hl, Except.ok.injEq] at h
        subst h
        have hf2 := fieldByName_setField r nm (.vInt n) (.vInt v) hf
        rcases hch n v hl with hv | hv
        · simp [updateIDsElem, hf2, hv]
        · simp [updateIDsElem, hf2, hv, setField_setField]
    | vNullInt32 n b =>
      cases hl : changesLookup ch n with
      | none =>
        simp only [updateIDsElem, hf, hl, Except.ok.injEq] at h
        subst h
        simp [updateIDsElem, hf, hl]
      | some v =>
        obtain ⟨hr1, hr2⟩ := hrange n v hl
        have hw : wrapInt32 v = v := wrapInt32_eq_self v hr1 hr2
        simp only [updateIDsElem, hf, hl, hw, Except.ok.injEq] at h
        subst h
        have hf2 := fieldByName_setField r nm (.vNullInt32 n b) (.vNullInt32 v b) hf
        rcases hch n v hl with hv | hv
        · simp [updateIDsElem, hf2, hv]
        · simp [updateIDsElem, hf2, hv, hw, setField_setField]
    | vString s => simp [updateIDsElem, hf] at h
    | vNullString s b => simp [updateIDsElem, hf] at h

/-- The element loop of `UpdateIDs` is idempotent list-wise under the
same conditions on the changes map. -/
theorem updateIDsList_idem (nm : String) (ch : Changes)
    (hch : ∀ k v, changesLookup ch k = some v →
      changesLookup ch v = none ∨ changesLookup ch v = some v)
    (hrange : ∀ k v, changesLookup ch k = some v →
      -2147483648 ≤ v ∧ v < 2147483648) :
    ∀ (s out : List (Option Row)), updateIDsList nm ch s = .ok out →
      updateIDsList nm ch out = .ok out := by
  intro s
  induction s with
  | nil =>
    intro out h
    simp only [updateIDsList, Except.ok.injEq] at h
    subst h
    rfl
  | cons x t ih =>
    intro out h
    cases x with
    | none =>
      cases hr : updateIDsList nm ch t with
      | error e => simp [updateIDsList, hr, Except.map] at h
      | ok l =>
        simp only [updateIDsList, hr, Except.map, Except.ok.injEq] at h
        subst h
        simp [updateIDsList, ih l hr, Except.map]
    | some r =>
      cases he : updateIDsElem nm ch r with
      | error e => simp [updateIDsList, he] at h
      | ok r2 =>
        cases hr : updateIDsList nm ch t with
        | error e => simp [updateIDsList, he, hr, Except.map] at h
        | ok l =>
          simp only [updateIDsList, he, hr, Except.map, Except.ok.injEq] at h
          subst h
          simp [updateIDsList, updateIDsElem_idem nm ch hch hrange r r2 he,
            ih l hr, Except.map]

/-- C5 (amended): the FK rewrite is idempotent for every changes map
whose values lie in the `int32` range (so the truncating nullable write
stores them exactly) and are themselves either no keys of the map or
fixed points of it — the shape under which rewriting a slot a second
time cannot move it further. -/
theorem claim_C5_idempotent (nm : String) (ch : Changes)
    (hch : ∀ k v, changesLookup ch k = some v →
      changesLookup ch v = none ∨ changesLookup ch v = some v)
    (hrange : ∀ k v, changesLookup ch k = some v →
      -2147483648 ≤ v ∧ v < 2147483648)
    (s out : List (Option Row))
    (h : UpdateIDs (.slice s) nm ch = .ok out) :
    UpdateIDs (.slice out) nm ch = .ok out :=
  updateIDsList_idem nm ch hch hrange s out h

/-- C5 (witness): the idempotence theorem applied to a concrete slice
and the map \x7b1→5\x7d, whose only value 5 is in the `int32` range
and not among its keys. -/
theorem claim_C5_witness :
    (∀ k v, changesLookup [((1:Int), (5:Int))] k = some v →
      changesLookup [((1:Int), (5:Int))] v = none ∨
      changesLookup [((1:Int), (5:Int))] v = some v)
    ∧ (∀ k v, changesLookup [((1:Int), (5:Int))] k = some v →
      -2147483648 ≤ v ∧ v < 2147483648)
    ∧ UpdateIDs (.slice [some [("LocationID", FieldVal.vInt 1)]])
        "LocationID" [(1, 5)] = .ok [some [("LocationID", FieldVal.vInt 5)]]
    ∧ UpdateIDs (.slice [some [("LocationID", FieldVal.vInt 5)]])
        "LocationID" [(1, 5)] = .ok [some [("LocationID", FieldVal.vInt 5)]] := by
  have hch : ∀ k v, changesLookup [((1:Int), (5:Int))] k = some v →
      changesLookup [((1:Int), (5:Int))] v = none ∨
      changesLookup [((1:Int), (5:Int))] v = some v := by
    intro k v h
    by_cases hk : ((1:Int) == k) = true
    · simp only [changesLookup, List.find?, hk, Option.map_some] at h
      obtain rfl : (5 : Int) = v := by injection h
      exact Or.inl rfl
    · simp only [changesLookup, List.find?, Bool.not_eq_true] at h
      rw [Bool.not_eq_true] at hk
      rw [hk] at h
      simp at h
  have hrange : ∀ k v, changesLookup [((1:Int), (5:Int))] k = some v →
      -2147483648 ≤ v ∧ v < 2147483648 := by
    intro k v h
    by_cases hk : ((1:Int) == k) = true
    · simp only [changesLookup, List.find?, hk, Option.map_some] at h
      obtain rfl : (5 : Int) = v := by injection h
      constructor <;> decide
    · simp only [changesLookup, List.find?, Bool.not_eq_true] at h
      rw [Bool.not_eq_true] at hk
      rw [hk] at h
      simp at h
  exact ⟨hch, hrange, rfl,
    claim_C5_idempotent "LocationID" [(1, 5)] hch hrange
      [some [("LocationID", FieldVal.vInt 1)]]
      [some [("LocationID", FieldVal.vInt 5)]] rfl⟩

/-- Elementwise description of a successful `UpdateIDs` run: the row at
any position of the input slice is sent to the corresponding position
of the output by one successful loop iteration. -/
theorem updateIDsList_get_some (nm : String) (ch : Changes) :
    ∀ (s out : List (Option Row)), updateIDsList nm ch s = .ok out →
      ∀ (i : Nat) (row : Row), s[i]? = some (some row) →
        ∃ row2, updateIDsElem nm ch row = .ok row2 ∧ out[i]? = some (some row2) := by
  intro s
  induction s with
  | nil => intro out h i row hrow; simp at hrow
  | cons x t ih =>
    intro out h i row hrow
    cases x with
    | none =>
      cases hr : updateIDsList nm ch t with
      | error e => simp [updateIDsList, hr, Except.map] at h
      | ok l =>
        simp only [updateIDsList, hr, Except.map, Except.ok.injEq] at h
        subst h
        cases i with
        | zero => simp at hrow
        | succ j =>
          simp only [List.getElem?_cons_succ] at hrow ⊢
          exact ih l hr j row hrow
    | some r =>
      cases he : updateIDsElem nm ch r with
      | error e => simp [updateIDsList, he] at h
      | ok r2 =>
        cases hr : updateIDsList nm ch t with
        | error e => simp [updateIDsList, he, hr, Except.map] at h
        | ok l =>
          simp only [updateIDsList, he, hr, Except.map, Except.ok.injEq] at h
          subst h
          cases i with
          | zero =>
            simp only [List.getElem?_cons_zero, Option.some.injEq] at hrow
            subst hrow
            exact ⟨r2, he, by simp⟩
          | succ j =>
            simp only [List.getElem?_cons_succ] at hrow ⊢
            exact ih l hr j row hrow

/-- C1 (amended): on a successful `UpdateIDs` run, a row whose named FK
field is a nullable integer has its numeric slot rewritten through the
changes map regardless of the present bit — a slot that is a key of the
map is replaced by the mapped value truncated to `int32` (reflect's
`SetInt` wraps on write) and any other slot is kept — while the present
bit itself is preserved; an absent FK whose slot matches a key is
therefore changed, not left alone. -/
theorem claim_C1_nullable_slot_rewritten (nm : String) (ch : Changes)
    (s out : List (Option Row)) (h : UpdateIDs (.slice s) nm ch = .ok out)
    (i : Nat) (row : Row) (n : Int) (b : Bool)
    (hrow : s[i]? = some (some row))
    (hfield : fieldByName row nm = some (.vNullInt32 n b)) :
    ∃ row2, out[i]? = some (some row2) ∧
      fieldByName row2 nm = some (.vNullInt32 (changesApplyInt32 ch n) b) := by
  obtain ⟨row2, he, hout⟩ := updateIDsList_get_some nm ch s out h i row hrow
  refine ⟨row2, hout, ?_⟩
  cases hl : changesLookup ch n with
  | none =>
    simp only [updateIDsElem, hfield, hl, Except.ok.injEq] at he
    subst he
    simp [changesApplyInt32, hl, hfield]
  | some v =>
    simp only [updateIDsElem, hfield, hl, Except.ok.injEq] at he
    subst he
    simp [changesApplyInt32, hl,
      fieldByName_setField row nm (.vNullInt32 n b)
        (.vNullInt32 (wrapInt32 v) b) hfield]

/-- C1 (witness): the amended theorem applied to the concrete slice of
the counterexample — an absent `LocationID` with slot 1 under the map
\x7b1→5\x7d ends with slot 5 and `Valid` still false. -/
theorem claim_C1_witness :
    UpdateIDs (.slice [some (noteRow 1 1 false)]) "LocationID" [(1, 5)]
      = .ok [some [("NoteID", FieldVal.vInt 1),
          ("LocationID", FieldVal.vNullInt32 5 false)]]
    ∧ ([some (noteRow 1 1 false)] : List (Option Row))[0]?
        = some (some (noteRow 1 1 false))
    ∧ fieldByName (noteRow 1 1 false) "LocationID"
        = some (.vNullInt32 1 false)
    ∧ ∃ row2,
        ([some [("NoteID", FieldVal.vInt 1),
            ("LocationID", FieldVal.vNullInt32 5 false)]] :
          List (Option Row))[0]? = some (some row2) ∧
        fieldByName row2 "LocationID"
          = some (.vNullInt32 (changesApplyInt32 [(1, 5)] 1) false) := by
  refine ⟨rfl, rfl, rfl, ?_⟩
  exact claim_C1_nullable_slot_rewritten "LocationID" [(1, 5)]
    [some (noteRow 1 1 false)]
    [some [("NoteID", FieldVal.vInt 1),
      ("LocationID", FieldVal.vNullInt32 5 false)]] rfl 0
    (noteRow 1 1 false) 1 false rfl rfl

/-- A loop iteration of `UpdateIDs` panics on a row that lacks the named
field or carries it at an unsupported type. -/
theorem updateIDsElem_error_of_bad (nm : String) (ch : Changes) (row : Row)
    (hbad : fieldByName row nm = none ∨
      ∃ v, fieldByName row nm = some v ∧ isSupportedFK v = false) :
    ∃ e, updateIDsElem nm ch row = .error e := by
  rcases hbad with hnone | ⟨v, hv, hunsup⟩
  · exact ⟨"Given struct does not contain field " ++ nm,
      by simp [updateIDsElem, hnone]⟩
  · cases v with
    | vInt n => simp [isSupportedFK] at hunsup
    | vNullInt32 n b => simp [isSupportedFK] at hunsup
    | vString w => exact ⟨"Type of field " ++ nm ++ " is not supported!",
        by simp [updateIDsElem, hv]⟩
    | vNullString w b => exact ⟨"Type of field " ++ nm ++ " is not supported!",
        by simp [updateIDsElem, hv]⟩

/-- A panicking loop iteration anywhere in the slice aborts the whole
`UpdateIDs` call with an error. -/
theorem updateIDsList_error (nm : String) (ch : Changes) :
    ∀ (s : List (Option Row)) (row : Row), some row ∈ s →
      (∃ e, updateIDsElem nm ch row = .error e) →
      ∃ msg, updateIDsList nm ch s = .error msg := by
  intro s
  induction s with
  | nil => intro row hmem; simp at hmem
  | cons x t ih =>
    intro row hmem he
    rcases List.mem_cons.mp hmem with hx | hmem2
    · obtain ⟨e, he2⟩ := he
      subst hx
      exact ⟨e, by simp [updateIDsList, he2]⟩
    · cases x with
      | none =>
        obtain ⟨m, hm⟩ := ih row hmem2 he
        exact ⟨m, by simp [updateIDsList, hm, Except.map]⟩
      | some r =>
        cases he2 : updateIDsElem nm ch r with
        | error e => exact ⟨e, by simp [updateIDsList, he2]⟩
        | ok r2 =>
          obtain ⟨m, hm⟩ := ih row hmem2 he
          exact ⟨m, by simp [updateIDsList, he2, hm, Except.map]⟩

/-- C9 (confirmed): `UpdateIDs` fails fatally — never silently skipping
a rewrite target — whenever some non-nil row lacks the named FK field
or carries it at a type that is neither `int` nor nullable int, and
always fails on a non-slice argument, with the panic messages of the
source. -/
theorem claim_C9_update_ids_fatal (nm : String) (ch : Changes)
    (s : List (Option Row)) (row : Row)
    (hmem : some row ∈ s)
    (hbad : fieldByName row nm = none ∨
      ∃ v, fieldByName row nm = some v ∧ isSupportedFK v = false) :
    (∃ msg, UpdateIDs (.slice s) nm ch = .error msg)
    ∧ UpdateIDs .nonSlice nm ch = .error "Only slices are supported!" :=
  ⟨updateIDsList_error nm ch s row hmem
    (updateIDsElem_error_of_bad nm ch row hbad), rfl⟩

/-- C9 (witness): the fatal-error theorem applied to the Bookmark slice
of `TestUpdateIDs_Bookmarks` with the unknown field name "WrongField". -/
theorem claim_C9_witness :
    (some (bookmarkRow 1 5) ∈
      [none, some (bookmarkRow 1 5), some (bookmarkRow 2 0)])
    ∧ fieldByName (bookmarkRow 1 5) "WrongField" = none
    ∧ (∃ msg, UpdateIDs
        (.slice [none, some (bookmarkRow 1 5), some (bookmarkRow 2 0)])
        "WrongField" [] = .error msg)
    ∧ UpdateIDs .nonSlice "WrongField" []
        = .error "Only slices are supported!" := by
  obtain ⟨h1, h2⟩ := claim_C9_update_ids_fatal "WrongField" []
    [none, some (bookmarkRow 1 5), some (bookmarkRow 2 0)]
    (bookmarkRow 1 5) (by decide) (Or.inl rfl)
  exact ⟨by decide, rfl, h1, h2⟩

/-- C8 (amended): `Location.UniqueKey` is the underscore-joined string
of the spec's field list where each nullable integer contributes its
numeric slot as stored; on every row whose absent nullable fields carry
a zero slot — which is how the database scanner materialises NULLs —
this coincides with the claim's format in which an absent field
contributes 0, and the `Title` field never influences the key. -/
theorem claim_C8_unique_key (m : Location)
    (hb : m.BookNumber.Valid = false → m.BookNumber.Int32 = 0)
    (hc : m.ChapterNumber.Valid = false → m.ChapterNumber.Int32 = 0)
    (hd : m.DocumentID.Valid = false → m.DocumentID.Int32 = 0)
    (ht : m.Track.Valid = false → m.Track.Int32 = 0) :
    Location.UniqueKey m = locationUniqueKeyOfSpec m
    ∧ ∀ t : NullString,
        Location.UniqueKey { m with Title := t } = Location.UniqueKey m := by
  constructor
  · have e1 : (if m.BookNumber.Valid then m.BookNumber.Int32 else 0)
        = m.BookNumber.Int32 := by
      cases hv : m.BookNumber.Valid
      · simp [hb hv]
      · simp
    have e2 : (if m.ChapterNumber.Valid then m.ChapterNumber.Int32 else 0)
        = m.ChapterNumber.Int32 := by
      cases hv : m.ChapterNumber.Valid
      · simp [hc hv]
      · simp
    have e3 : (if m.DocumentID.Valid then m.DocumentID.Int32 else 0)
        = m.DocumentID.Int32 := by
      cases hv : m.DocumentID.Valid
      · simp [hd hv]
      · simp
    have e4 : (if m.Track.Valid then m.Track.Int32 else 0)
        = m.Track.Int32 := by
      cases hv : m.Track.Valid
      · simp [ht hv]
      · simp
    unfold Location.UniqueKey locationUniqueKeyOfSpec
    rw [e1, e2, e3, e4]
  · intro t
    rfl

/-- C8 (witness): the amended theorem applied to a well-formed concrete
`Location` whose absent nullable fields carry zero slots. -/
theorem claim_C8_witness :
    ((locationWf.BookNumber.Valid = false → locationWf.BookNumber.Int32 = 0)
      ∧ (locationWf.ChapterNumber.Valid = false →
          locationWf.ChapterNumber.Int32 = 0)
      ∧ (locationWf.DocumentID.Valid = false →
          locationWf.DocumentID.Int32 = 0)
      ∧ (locationWf.Track.Valid = false → locationWf.Track.Int32 = 0))
    ∧ Location.UniqueKey locationWf = locationUniqueKeyOfSpec locationWf
    ∧ ∀ t : NullString,
        Location.UniqueKey { locationWf with Title := t }
          = Location.UniqueKey locationWf := by
  obtain ⟨h1, h2⟩ := claim_C8_unique_key locationWf
    (by decide) (by decide) (by decide) (by decide)
  exact ⟨⟨by decide, by decide, by decide, by decide⟩, h1, h2⟩

/-- A list element found through `getElem?` is a member. -/
theorem mem_of_getElem_opt {α : Type} {l : List α} {n : Nat} {a : α}
    (h : l[n]? = some a) : a ∈ l := by
  obtain ⟨hlt, he⟩ := List.getElem?_eq_some_iff.mp h
  exact he ▸ List.getElem_mem hlt

/-- Inserting nil with the comparator of `sortByUniqueKey` always puts
it at the head: nil is smaller than everything. -/
theorem orderedInsert_none (l : List (Option MRow)) :
    List.orderedInsert sbuLE none l = none :: l := by
  cases l with
  | nil => rfl
  | cons b t =>
    exact if_pos (show sbuLess b none = false from rfl)

/-- Inserting a non-nil element skips any leading block of nils. -/
theorem orderedInsert_some_replicate (r : MRow) (k : Nat)
    (t : List (Option MRow)) :
    List.orderedInsert sbuLE (some r) (List.replicate k none ++ t)
      = List.replicate k none ++ List.orderedInsert sbuLE (some r) t := by
  induction k with
  | zero => simp
  | succ n ih =>
    rw [List.replicate_succ, List.cons_append, List.orderedInsert, if_neg, ih,
      List.cons_append]
    intro hcontra
    exact absurd hcontra (by simp [sbuLE, sbuLess])

/-- The sort step of `sortByUniqueKey` gathers all nils into a leading
block: the output is a block of nils followed by nil-free rest. -/
theorem insertionSort_nones_prefix (l : List (Option MRow)) :
    ∃ k t, List.insertionSort sbuLE l = List.replicate k none ++ t
      ∧ ∀ x ∈ t, x ≠ none := by
  induction l with
  | nil => exact ⟨0, [], rfl, by simp⟩
  | cons x xs ih =>
    obtain ⟨k, t, heq, ht⟩ := ih
    cases x with
    | none =>
      refine ⟨k + 1, t, ?_, ht⟩
      rw [List.insertionSort, heq, orderedInsert_none, List.replicate_succ,
        List.cons_append]
    | some r =>
      refine ⟨k, List.orderedInsert sbuLE (some r) t, ?_, ?_⟩
      · rw [List.insertionSort, heq, orderedInsert_some_replicate]
      · intro y hy
        rcases (List.mem_orderedInsert sbuLE).mp hy with hy1 | hy2
        · simp [hy1]
        · exact ht y hy2

/-- After sorting and nil-deduplication, an input containing at least
one nil becomes a single leading nil followed by a nil-free tail. -/
theorem sortedTrimmed_structure (s : List (Option MRow)) (hnil : none ∈ s) :
    ∃ t, sortedTrimmed s = none :: t ∧ ∀ x ∈ t, x ≠ none := by
  obtain ⟨k, t, heq, ht⟩ := insertionSort_nones_prefix s
  have hcount : (List.insertionSort sbuLE s).countP (fun e => e.isNone) = k := by
    rw [heq, List.countP_append]
    have h1 : (List.replicate k (none : Option MRow)).countP
        (fun e => e.isNone) = k := by
      simp [List.countP_replicate]
    have h2 : t.countP (fun e => e.isNone) = 0 := by
      rw [List.countP_eq_zero]
      intro a ha
      cases a with
      | none => exact absurd rfl (ht none ha)
      | some y => simp
    rw [h1, h2]
    omega
  have hk : 1 ≤ k := by
    by_contra hcontra
    push_neg at hcontra
    interval_cases k
    · rw [List.replicate_zero, List.nil_append] at heq
      have : none ∈ List.insertionSort sbuLE s :=
        (List.mem_insertionSort sbuLE).mpr hnil
      rw [heq] at this
      exact absurd rfl (ht none this)
  refine ⟨t, ?_, ht⟩
  unfold sortedTrimmed dropExtraNils
  rw [hcount, heq]
  by_cases hk2 : k > 1
  · have hk1 : k = (k - 1) + 1 := by omega
    have hsplit : List.replicate k (none : Option MRow) ++ t
        = List.replicate (k - 1) none ++ (none :: t) := by
      conv_lhs => rw [hk1]
      rw [List.replicate_succ', List.append_assoc, List.singleton_append]
    rw [if_pos hk2, hsplit]
    have hlen : (List.replicate (k - 1) (none : Option MRow)).length = k - 1 :=
      List.length_replicate _ _
    have hdrop := List.drop_left (List.replicate (k - 1) (none : Option MRow))
      (none :: t)
    rwa [hlen] at hdrop
  · rw [if_neg hk2]
    have : k = 1 := by omega
    rw [this, List.replicate_one, List.singleton_append]

/-- Elementwise description of the renumbering loop's effect on the
slice: the row at offset `j` keeps its payload and ends with ID
`i + j`, the index at which the loop visits it (a row whose ID already
equals its index is left alone, which yields the same value). -/
theorem renumber_fst_get (t : List (Option MRow)) :
    ∀ (i : Nat) (ch : Changes) (j : Nat),
      (renumber i t ch).1[j]?
        = (t[j]?).map (Option.map (fun x => { x with id := ((i + j : Nat) : Int) })) := by
  induction t with
  | nil => intro i ch j; simp [renumber]
  | cons x rest ih =>
    intro i ch j
    cases x with
    | none =>
      cases j with
      | zero => simp [renumber]
      | succ j2 =>
        simp only [renumber, List.getElem?_cons_succ]
        have hn : i + 1 + j2 = i + (j2 + 1) := by omega
        rw [ih (i + 1) ch j2, hn]
    | some r =>
      by_cases hid : r.id = (i : Int)
      · cases j with
        | zero =>
          simp only [renumber, if_pos hid, List.getElem?_cons_zero,
            Option.map_some]
          cases r with
          | mk rid rkey =>
            simp only at hid
            subst hid
            simp
        | succ j2 =>
          simp only [renumber, if_pos hid, List.getElem?_cons_succ]
          have hn : i + 1 + j2 = i + (j2 + 1) := by omega
          rw [ih (i + 1) ch j2, hn]
      · cases j with
        | zero =>
          simp only [renumber, if_neg hid, List.getElem?_cons_zero,
            Option.map_some]
          simp
        | succ j2 =>
          simp only [renumber, if_neg hid, List.getElem?_cons_succ]
          have hn : i + 1 + j2 = i + (j2 + 1) := by omega
          rw [ih (i + 1) (changesSet ch r.id (i : Int)) j2, hn]

/-- Lookup in a concatenation of changes maps: the left map wins. -/
theorem changesLookup_append (l1 l2 : Changes) (k : Int) :
    changesLookup (l1 ++ l2) k
      = match changesLookup l1 k with
        | some v => some v
        | none => changesLookup l2 k := by
  induction l1 with
  | nil => simp [changesLookup]
  | cons p t ih =>
    by_cases hp : p.1 = k
    · simp [changesLookup, List.find?, hp]
    · have hb : (p.1 == k) = false := by simp [hp]
      simp only [changesLookup, List.cons_append, List.find?, hb] at ih ⊢
      exact ih

/-- Writing a key absent from a changes map appends a fresh entry. -/
theorem changesSet_fresh (ch : Changes) (k v : Int)
    (h : changesLookup ch k = none) :
    changesSet ch k v = ch ++ [(k, v)] := by
  unfold changesSet
  rw [if_neg]
  intro hcontra
  rw [changesLookup, Option.map_eq_none'] at h
  rw [h] at hcontra
  simp at hcontra

/-- Lookup in a one-entry changes map. -/
theorem changesLookup_singleton (k v q : Int) :
    changesLookup [(k, v)] q = if k = q then some v else none := by
  by_cases hq : k = q
  · simp [changesLookup, List.find?, hq]
  · have hb : (k == q) = false := by simp [hq]
    simp [changesLookup, List.find?, hb, hq]

/-- Splitting the positions of a cons cell in the changes
characterisation: position 0 is the head, positions `j + 1` are the
tail visited from index `i + 1`. -/
theorem exists_cons_shift (y : Option MRow) (z : List (Option MRow))
    (i : Nat) (k v : Int) :
    (∃ j x, (y :: z)[j]? = some (some x) ∧ x.id = k
      ∧ k ≠ ((i + j : Nat) : Int) ∧ v = ((i + j : Nat) : Int))
    ↔ ((∃ x, y = some x ∧ x.id = k ∧ k ≠ (i : Int) ∧ v = (i : Int))
       ∨ (∃ j x, z[j]? = some (some x) ∧ x.id = k
            ∧ k ≠ ((i + 1 + j : Nat) : Int) ∧ v = ((i + 1 + j : Nat) : Int))) := by
  constructor
  · rintro ⟨j, x, hx, h1, h2, h3⟩
    cases j with
    | zero =>
      left
      simp only [List.getElem?_cons_zero, Option.some.injEq] at hx
      exact ⟨x, hx, h1, by simpa using h2, by simpa using h3⟩
    | succ j2 =>
      right
      refine ⟨j2, x, by simpa using hx, h1, ?_, ?_⟩
      · have he : i + (j2 + 1) = i + 1 + j2 := by omega
        rwa [he] at h2
      · have he : i + (j2 + 1) = i + 1 + j2 := by omega
        rwa [he] at h3
  · rintro (⟨x, hy, h1, h2, h3⟩ | ⟨j, x, hx, h1, h2, h3⟩)
    · exact ⟨0, x, by simp [hy], h1, by simpa using h2, by simpa using h3⟩
    · refine ⟨j + 1, x, by simpa using hx, h1, ?_, ?_⟩
      · have he : i + (j + 1) = i + 1 + j := by omega
        rwa [he]
      · have he : i + (j + 1) = i + 1 + j := by omega
        rwa [he]

/-- Characterisation of the changes map built by the renumbering loop:
starting at index `i` with accumulated map `ch`, provided the IDs in
the slice are pairwise distinct and none of them is already a key of
`ch`, the final map holds exactly the entries of `ch` plus one entry
(old ID → visiting index) for each row whose ID differs from the index
at which the loop visits it. -/
theorem renumber_changes (t : List (Option MRow)) :
    ∀ (i : Nat) (ch : Changes),
      (∀ (j : Nat) (x : MRow), t[j]? = some (some x) → changesLookup ch x.id = none) →
      ((t.filterMap id).Pairwise (fun a b => a.id ≠ b.id)) →
      ∀ k v, changesLookup (renumber i t ch).2 k = some v ↔
        (changesLookup ch k = some v ∨
          ∃ j x, t[j]? = some (some x) ∧ x.id = k
            ∧ k ≠ ((i + j : Nat) : Int) ∧ v = ((i + j : Nat) : Int)) := by
  induction t with
  | nil =>
    intro i ch hfresh hpw k v
    simp [renumber]
  | cons y rest ih =>
    intro i ch hfresh hpw k v
    rw [exists_cons_shift]
    cases y with
    | none =>
      have hfresh2 : ∀ (j : Nat) (x : MRow), rest[j]? = some (some x) →
          changesLookup ch x.id = none := by
        intro j x hx
        exact hfresh (j + 1) x (by simpa using hx)
      have hpw2 : (rest.filterMap id).Pairwise (fun a b => a.id ≠ b.id) := hpw
      have hr : (renumber i (none :: rest) ch).2
          = (renumber (i + 1) rest ch).2 := rfl
      rw [hr, ih (i + 1) ch hfresh2 hpw2 k v]
      simp

    | some r =>
      have hfm : ((some r :: rest).filterMap id) = r :: rest.filterMap id := rfl
      rw [hfm] at hpw
      obtain ⟨hhead, hpw2⟩ := List.pairwise_cons.mp hpw
      have hfresh2 : ∀ (j : Nat) (x : MRow), rest[j]? = some (some x) →
          changesLookup ch x.id = none := by
        intro j x hx
        exact hfresh (j + 1) x (by simpa using hx)
      have hfresh0 : changesLookup ch r.id = none := hfresh 0 r (by simp)
      by_cases hid : r.id = (i : Int)
      · have hr : (renumber i (some r :: rest) ch).2
            = (renumber (i + 1) rest ch).2 := by
          simp [renumber, if_pos hid]
        rw [hr, ih (i + 1) ch hfresh2 hpw2 k v]
        have hhd : ¬ ∃ x, (some r : Option MRow) = some x ∧ x.id = k
            ∧ k ≠ (i : Int) ∧ v = (i : Int) := by
          rintro ⟨x, hx, h1, h2, h3⟩
          obtain rfl : r = x := by injection hx
          exact h2 (h1 ▸ hid)
        constructor
        · rintro (hc | hrest)
          · exact Or.inl hc
          · exact Or.inr (Or.inr hrest)
        · rintro (hc | hhead2 | hrest)
          · exact Or.inl hc
          · exact absurd hhead2 hhd
          · exact Or.inr hrest
      · have hr : (renumber i (some r :: rest) ch).2
            = (renumber (i + 1) rest (changesSet ch r.id (i : Int))).2 := by
          simp [renumber, if_neg hid]
        have hset : changesSet ch r.id (i : Int) = ch ++ [(r.id, (i : Int))] :=
          changesSet_fresh ch r.id (i : Int) hfresh0
        have hfresh2' : ∀ (j : Nat) (x : MRow), rest[j]? = some (some x) →
            changesLookup (changesSet ch r.id (i : Int)) x.id = none := by
          intro j x hx
          have hxm : x ∈ rest.filterMap id := by
            have hmem : some x ∈ rest := mem_of_getElem_opt hx
            exact List.mem_filterMap.mpr ⟨some x, hmem, rfl⟩
          have hne : r.id ≠ x.id := hhead x hxm
          rw [hset, changesLookup_append, hfresh2 j x hx,
            changesLookup_singleton, if_neg hne]
        rw [hr, ih (i + 1) (changesSet ch r.id (i : Int)) hfresh2' hpw2 k v]
        have hch' : changesLookup (changesSet ch r.id (i : Int)) k = some v ↔
            (changesLookup ch k = some v ∨
              (r.id = k ∧ k ≠ (i : Int) ∧ v = (i : Int))) := by
          rw [hset, changesLookup_append]
          cases hck : changesLookup ch k with
          | some w =>
            have hk : r.id ≠ k := by
              intro hcontra
              rw [hcontra, hck] at hfresh0
              exact absurd hfresh0 (by simp)
            dsimp only
            simp [hk]
          | none =>
            dsimp only
            rw [changesLookup_singleton]
            by_cases hk : r.id = k
            · subst hk
              rw [if_pos rfl]
              constructor
              · intro hv
                obtain rfl : (i : Int) = v := by injection hv
                exact Or.inr ⟨rfl, hid, rfl⟩
              · rintro (hfalse | ⟨-, -, hv⟩)
                · exact absurd hfalse (by simp)
                · rw [hv]
            · simp [hk]
        have hhd : (∃ x, (some r : Option MRow) = some x ∧ x.id = k
            ∧ k ≠ (i : Int) ∧ v = (i : Int)) ↔
            (r.id = k ∧ k ≠ (i : Int) ∧ v = (i : Int)) := by
          constructor
          · rintro ⟨x, hx, h1, h2, h3⟩
            obtain rfl : r = x := by injection hx
            exact ⟨h1, h2, h3⟩
          · rintro ⟨h1, h2, h3⟩
            exact ⟨r, rfl, h1, h2, h3⟩
        rw [hch', hhd]
        tauto

/-- Distinctness of the row IDs survives sorting (a permutation) and
nil-deduplication (a sublist). -/
theorem sortedTrimmed_pairwise (s : List (Option MRow))
    (hdist : (s.filterMap id).Pairwise (fun a b => a.id ≠ b.id)) :
    ((sortedTrimmed s).filterMap id).Pairwise (fun a b => a.id ≠ b.id) := by
  have hperm : List.Perm (List.insertionSort sbuLE s) s :=
    List.perm_insertionSort sbuLE s
  have hperm2 : List.Perm ((List.insertionSort sbuLE s).filterMap id)
      (s.filterMap id) := hperm.filterMap id
  have hsorted : ((List.insertionSort sbuLE s).filterMap id).Pairwise
      (fun a b => a.id ≠ b.id) :=
    (hperm2.pairwise_iff (fun h => Ne.symm h)).mpr hdist
  have hsub : List.Sublist (sortedTrimmed s) (List.insertionSort sbuLE s) := by
    unfold sortedTrimmed dropExtraNils
    by_cases h : (List.insertionSort sbuLE s).countP (fun e => e.isNone) > 1
    · rw [if_pos h]
      exact List.drop_sublist _ _
    · rw [if_neg h]
  exact List.Pairwise.sublist (hsub.filterMap id) hsorted

/-- C7 (amended): for every input list containing at least one nil,
`sortByUniqueKey` returns a list with exactly one nil located at index
0 and every non-nil row at position `i` carrying ID `i`; provided
additionally that the non-nil rows carry pairwise distinct IDs, the
returned old-to-new map holds exactly the entries (old ID → new index)
of the rows of the sorted, nil-deduplicated slice whose old ID differs
from their index. The distinctness hypothesis guards only the map
clause: with duplicate old IDs a later entry overwrites an earlier
one. -/
theorem claim_C7_sort_renumber (s : List (Option MRow))
    (hnil : none ∈ s) :
    ((sortByUniqueKey s).1[0]? = some none
      ∧ ∀ (j : Nat) (x : Option MRow),
          (sortByUniqueKey s).1[j + 1]? = some x → x ≠ none)
    ∧ (∀ (i : Nat) (r : MRow),
        (sortByUniqueKey s).1[i]? = some (some r) → r.id = (i : Int))
    ∧ ((s.filterMap id).Pairwise (fun a b => a.id ≠ b.id) →
        ∀ k v : Int, changesLookup (sortByUniqueKey s).2 k = some v ↔
          ∃ (i : Nat) (r : MRow), (sortedTrimmed s)[i]? = some (some r)
            ∧ r.id = k ∧ k ≠ (i : Int) ∧ v = (i : Int)) := by
  obtain ⟨t, htrim, ht⟩ := sortedTrimmed_structure s hnil
  have hout : ∀ j : Nat, (sortByUniqueKey s).1[j]?
      = ((sortedTrimmed s)[j]?).map
          (Option.map (fun x => { x with id := ((0 + j : Nat) : Int) })) :=
    fun j => renumber_fst_get (sortedTrimmed s) 0 [] j
  refine ⟨⟨?_, ?_⟩, ?_, ?_⟩
  · rw [hout 0, htrim]
    simp
  · intro j x hx
    rw [hout (j + 1), htrim] at hx
    simp only [List.getElem?_cons_succ] at hx
    obtain ⟨e, he, hge⟩ := Option.map_eq_some'.mp hx
    have hmem : e ∈ t := mem_of_getElem_opt he
    have hne := ht e hmem
    cases e with
    | none => exact absurd rfl hne
    | some y =>
      subst hge
      simp
  · intro i r hx
    rw [hout i] at hx
    obtain ⟨e, he, hge⟩ := Option.map_eq_some'.mp hx
    obtain ⟨y, rfl, hfy⟩ := Option.map_eq_some'.mp hge
    rw [← hfy]
    simp
  · intro hdist k v
    have hfresh : ∀ (j : Nat) (x : MRow),
        (sortedTrimmed s)[j]? = some (some x) →
        changesLookup [] x.id = none := fun _ _ _ => rfl
    have hpwt := sortedTrimmed_pairwise s hdist
    rw [show (sortByUniqueKey s).2 = (renumber 0 (sortedTrimmed s) []).2
      from rfl]
    rw [renumber_changes (sortedTrimmed s) 0 [] hfresh hpwt k v]
    simp [changesLookup]

/-- C7 (witness): the sort/renumber theorem applied to a concrete slice
with one nil and two non-nil rows with distinct IDs. -/
theorem claim_C7_witness :
    (none ∈ c7Witness)
    ∧ (((sortByUniqueKey c7Witness).1[0]? = some none
      ∧ ∀ (j : Nat) (x : Option MRow),
          (sortByUniqueKey c7Witness).1[j + 1]? = some x → x ≠ none)
    ∧ (∀ (i : Nat) (r : MRow),
        (sortByUniqueKey c7Witness).1[i]? = some (some r) → r.id = (i : Int))
    ∧ ((c7Witness.filterMap id).Pairwise (fun a b => a.id ≠ b.id) →
        ∀ k v : Int, changesLookup (sortByUniqueKey c7Witness).2 k = some v ↔
          ∃ (i : Nat) (r : MRow), (sortedTrimmed c7Witness)[i]? = some (some r)
            ∧ r.id = k ∧ k ≠ (i : Int) ∧ v = (i : Int))) := by
  refine ⟨by decide, ?_⟩
  exact claim_C7_sort_renumber c7Witness (by decide)

end GoJwlm
